import Mathlib

/-!
Verification development for the Polar H10 health-checker repository.

The program (`main.py`) receives BLE notification payloads from a Polar H10
sensor.  `pmd_data_handler` decodes ECG waveform packets (tag byte `0x00`,
samples as 3-byte signed little-endian integers starting at offset 10) and
appends them to module-level session buffers together with a relative time
stamp `sample_counter / SAMPLING_RATE`.  `parse_heart_rate_measurement`
decodes heart-rate notifications.  `update_graph` shows the trailing
10-second window and runs a peak detector; `generate_combined_csv` merges
both streams into timestamp-sorted export rows.

Modelling conventions of this shallow embedding:
* a byte sequence is a `List Nat` of values `< 256`;
* Python `float` time values and datetimes are modelled as exact rationals;
* Python exceptions (e.g. `IndexError` from an out-of-range index) are
  modelled by `Option`: `none` means the call raises;
* Python's stable `list.sort(key=...)` is modelled by a stable insertion
  sort on the sort key (the parsed timestamp).
-/

namespace PolarH10

/-- Python `int.from_bytes(bs, byteorder="little", signed=False)`:
the unsigned little-endian value of a byte list (first byte least
significant). -/
def int_from_bytes_le_unsigned (bs : List Nat) : Nat :=
  bs.foldr (fun b acc => b + 256 * acc) 0

/-- Python `int.from_bytes(bs, byteorder="little", signed=True)`:
two's-complement signed little-endian value.  Python subtracts `256^len`
when the top bit of the most significant byte is set; on the empty byte
string it returns 0, as does this definition. -/
def int_from_bytes_le_signed (bs : List Nat) : Int :=
  let u := int_from_bytes_le_unsigned bs
  if 2 * u < 256 ^ bs.length then (u : Int) else (u : Int) - 256 ^ bs.length

/-- Sampling rate constant `SAMPLING_RATE = 100` (`main.py` line 25). -/
def SAMPLING_RATE : Nat := 100

/-- The module-level mutable session state of `main.py`:
`ecg_session_data`, `ecg_session_time`, `sample_counter`,
`current_ble_hr` and `hr_log` (lines 22-31). -/
structure SessionState where
  ecg_session_data : List Int
  ecg_session_time : List ℚ
  sample_counter : Nat
  current_ble_hr : Option Nat
  hr_log : List (ℚ × Nat)
deriving DecidableEq, Repr

/-- The initial (empty) session state. -/
def initState : SessionState :=
  { ecg_session_data := []
    ecg_session_time := []
    sample_counter := 0
    current_ble_hr := none
    hr_log := [] }

/-- One iteration body of the `while` loop in `pmd_data_handler`
(`main.py` lines 57-63): append the decoded value, append
`sample_counter / SAMPLING_RATE` as its relative time, and increment
`sample_counter`. -/
def append_ecg_sample (s : SessionState) (v : Int) : SessionState :=
  { s with
    ecg_session_data := s.ecg_session_data ++ [v]
    ecg_session_time := s.ecg_session_time ++ [(s.sample_counter : ℚ) / (SAMPLING_RATE : ℚ)]
    sample_counter := s.sample_counter + 1 }

/-- The `while offset + step <= len(samples)` loop of `pmd_data_handler`
(`main.py` lines 54-63) with `step = 3`: while at least 3 bytes remain,
convert the next 3-byte group with `int.from_bytes(..., "little",
signed=True)` and append it; fewer than 3 remaining bytes end the loop. -/
def pmd_loop : List Nat → SessionState → SessionState
  | b0 :: b1 :: b2 :: rest, s =>
      pmd_loop rest (append_ecg_sample s (int_from_bytes_le_signed [b0, b1, b2]))
  | _, s => s

/-- Handler `pmd_data_handler` (`main.py` lines 41-63): return unchanged on an
empty payload; if byte 0 is `0x00`, run the sample loop on `data[10:]`;
any other tag leaves the state unchanged. -/
def pmd_data_handler (s : SessionState) (data : List Nat) : SessionState :=
  match data with
  | [] => s
  | b :: _ => if b = 0 then pmd_loop (data.drop 10) s else s

/-- The value-level projection of the sample loop: the list of decoded
3-byte signed little-endian amplitudes, consuming the byte list in fixed
3-byte groups and silently discarding a remainder of fewer than 3 bytes. -/
def decode_ecg_samples : List Nat → List Int
  | b0 :: b1 :: b2 :: rest =>
      int_from_bytes_le_signed [b0, b1, b2] :: decode_ecg_samples rest
  | _ => []

/-- What `pmd_data_handler` decodes from a whole payload (the spec's
`decode_waveform_packet`): nothing for an empty payload or a tag other
than `0x00`; otherwise the 3-byte groups of `data[10:]`. -/
def decode_waveform_packet (data : List Nat) : List Int :=
  match data with
  | [] => []
  | b :: _ => if b = 0 then decode_ecg_samples (data.drop 10) else []

/-- Parser `parse_heart_rate_measurement` (`main.py` lines 66-76), with `none`
modelling a raised `IndexError`: `data[0]` raises on an empty payload;
with flag bit clear, `data[1]` raises on a 1-byte payload; with flag bit
set, `int.from_bytes(data[1:3], "little")` never raises because the
Python slice truncates. -/
def parse_heart_rate_measurement (data : List Nat) : Option Nat :=
  match data with
  | [] => none
  | b0 :: rest =>
      if b0 &&& 1 = 0 then
        match rest with
        | [] => none
        | b1 :: _ => some b1
      else
        some (int_from_bytes_le_unsigned (rest.take 2))

/-- Handler `heart_rate_notification_handler` (`main.py` lines 79-88): parse the
payload, record the value as `current_ble_hr` and append
`(now, hr)` to `hr_log`.  If parsing raises, the mutation is never
reached and the state is unchanged. -/
def heart_rate_notification_handler (s : SessionState) (now : ℚ)
    (data : List Nat) : SessionState :=
  match parse_heart_rate_measurement data with
  | none => s
  | some hr =>
      { s with
        current_ble_hr := some hr
        hr_log := s.hr_log ++ [(now, hr)] }

/-- One ingestion event: a PMD (waveform) notification or a heart-rate
notification arriving at absolute time `now`. -/
inductive Op where
  | waveform (data : List Nat)
  | heartRate (now : ℚ) (data : List Nat)
deriving DecidableEq, Repr

/-- Dispatch one ingestion event to its handler. -/
def step (s : SessionState) : Op → SessionState
  | .waveform data => pmd_data_handler s data
  | .heartRate now data => heart_rate_notification_handler s now data

/-- Run a whole arrival sequence from the empty initial session. -/
def run_ops (ops : List Op) : SessionState :=
  ops.foldl step initState

/-- The session-store invariant of the spec: `sample_counter` equals the
length of the waveform sequence, the time sequence has the same length,
and the `i`-th relative time is `i / SAMPLING_RATE`. -/
def SessionInv (s : SessionState) : Prop :=
  s.sample_counter = s.ecg_session_data.length ∧
  s.ecg_session_time.length = s.ecg_session_data.length ∧
  ∀ i (h : i < s.ecg_session_time.length),
    s.ecg_session_time.get ⟨i, h⟩ = (i : ℚ) / (SAMPLING_RATE : ℚ)

/-- Window constant `window_size = SAMPLING_RATE * 10` (`main.py` line 149): the trailing
10-second display window at the fixed sampling rate. -/
def window_size : Nat := SAMPLING_RATE * 10

/-- The windowing step of `update_graph` (`main.py` lines 148-152): if
more than `window_size` samples exist, keep the trailing `window_size`
elements of both lists (`data[-window_size:]`, `times[-window_size:]`);
otherwise leave both unchanged. -/
def update_graph_window (data : List Int) (times : List ℚ) :
    List Int × List ℚ :=
  if window_size < data.length then
    (data.drop (data.length - window_size),
     times.drop (times.length - window_size))
  else (data, times)

/-- The peak-detection step of `update_graph` (`main.py` lines 157-166):
`find_peaks` (with its distance and prominence arguments, the latter
computed from `np.std`) is only invoked under the guard
`len(data) > 0`; on empty data no peak indices are produced.  The
external `scipy`/`numpy` computation is abstracted as the parameter
`find_peaks`. -/
def update_graph_peaks (find_peaks : List Int → List Nat)
    (data : List Int) : List Nat :=
  if 0 < data.length then find_peaks data else []

/-- One row of the combined CSV built by `generate_combined_csv`
(`main.py` lines 186-201): a timestamp (modelled as a rational instant),
a source label and a numeric value. -/
structure Row where
  timestamp : ℚ
  source : String
  value : Int
deriving DecidableEq, Repr

/-- Insert a row into an already-sorted row list, after every element
whose timestamp is `≤` the new row's timestamp.  Together with
`sortRows` this is the stable sort semantics of Python's
`rows.sort(key=lambda row: pd.to_datetime(row["timestamp"]))`
(`main.py` line 203): equal timestamps keep their input order. -/
def insertRow (r : Row) : List Row → List Row
  | [] => [r]
  | x :: xs => if x.timestamp ≤ r.timestamp then x :: insertRow r xs
               else r :: x :: xs

/-- Stable sort of the row list by timestamp: fold the input from the
left, inserting each later row after existing rows with an equal or
smaller timestamp. -/
def sortRows (l : List Row) : List Row :=
  l.foldl (fun acc r => insertRow r acc) []

/-- The row-building part of `generate_combined_csv`
(`main.py` lines 181-205): one `"ECG"` row per `zip(ecg_times,
ecg_values)` pair with absolute timestamp `session_start_time +
rel_time`, then one `"Heart Rate"` row per `hr_log` entry carrying its
recorded timestamp, then a stable sort by timestamp. -/
def generate_combined_csv_rows (ecg_times : List ℚ) (ecg_values : List Int)
    (hr_log : List (ℚ × Nat)) (session_start_time : ℚ) : List Row :=
  sortRows
    (((ecg_times.zip ecg_values).map fun p =>
        { timestamp := session_start_time + p.1, source := "ECG", value := p.2 }) ++
     (hr_log.map fun p =>
        { timestamp := p.1, source := "Heart Rate", value := (p.2 : Int) }))

/-! ### Helper lemmas about the sample loop -/

/-- The stateful sample loop equals folding the decoded value list over
single appends: decoding and appending commute. -/
theorem pmd_loop_eq :
    ∀ (samples : List Nat) (s : SessionState),
      pmd_loop samples s = (decode_ecg_samples samples).foldl append_ecg_sample s
  | [], _ => rfl
  | [_], _ => rfl
  | [_, _], _ => rfl
  | b0 :: b1 :: b2 :: rest, s => by
      simp only [pmd_loop, decode_ecg_samples, List.foldl_cons]
      exact pmd_loop_eq rest _

/-- Fewer than 3 bytes decode to no samples (silently discarded
remainder). -/
theorem decode_ecg_samples_short {rem : List Nat} (h : rem.length < 3) :
    decode_ecg_samples rem = [] := by
  match rem with
  | [] => rfl
  | [_] => rfl
  | [_, _] => rfl
  | _ :: _ :: _ :: _ => simp at h; omega

/-- Decoding a byte list made of complete 3-byte groups followed by a
remainder of fewer than 3 bytes yields exactly one signed value per
group, in order. -/
theorem decode_ecg_samples_flatten :
    ∀ (groups : List (Nat × Nat × Nat)) (rem : List Nat), rem.length < 3 →
      decode_ecg_samples ((groups.map fun g => [g.1, g.2.1, g.2.2]).flatten ++ rem)
        = groups.map fun g => int_from_bytes_le_signed [g.1, g.2.1, g.2.2]
  | [], rem, h => by simpa using decode_ecg_samples_short h
  | g :: gs, rem, h => by
      simp [decode_ecg_samples, decode_ecg_samples_flatten gs rem h]

/-- Fold of single-sample appends, characterized exactly: the data list
is extended by the values, the time list by as many entries, the counter
by the count; the heart-rate fields are untouched. -/
theorem append_fold_spec :
    ∀ (vals : List Int) (s : SessionState),
      ∃ ts : List ℚ,
        vals.foldl append_ecg_sample s =
          { s with
            ecg_session_data := s.ecg_session_data ++ vals
            ecg_session_time := s.ecg_session_time ++ ts
            sample_counter := s.sample_counter + vals.length } ∧
        ts.length = vals.length
  | [], s => ⟨[], by simp⟩
  | v :: vs, s => by
      obtain ⟨ts, hts, hlen⟩ := append_fold_spec vs (append_ecg_sample s v)
      refine ⟨(s.sample_counter : ℚ) / (SAMPLING_RATE : ℚ) :: ts, ?_, by simp [hlen]⟩
      rw [List.foldl_cons, hts]
      simp only [append_ecg_sample, List.length_cons]
      congr 1
      all_goals first | rfl | simp | omega

/-- A single sample append preserves the session-store invariant. -/
theorem append_one_inv {s : SessionState} (h : SessionInv s) (v : Int) :
    SessionInv (append_ecg_sample s v) := by
  obtain ⟨h1, h2, h3⟩ := h
  refine ⟨by simp [append_ecg_sample, h1], by simp [append_ecg_sample, h2], ?_⟩
  intro i hi
  simp only [append_ecg_sample, List.length_append, List.length_cons,
    List.length_nil] at hi
  by_cases hlt : i < s.ecg_session_time.length
  · have := h3 i hlt
    simp only [append_ecg_sample, List.get_eq_getElem] at *
    rwa [List.getElem_append_left hlt]
  · have hieq : i = s.ecg_session_time.length := by omega
    simp only [append_ecg_sample, List.get_eq_getElem]
    rw [List.getElem_append_right (by omega)]
    simp [hieq, h1, h2]

/-- The fold of sample appends preserves the session-store invariant. -/
theorem append_fold_inv :
    ∀ (vals : List Int) {s : SessionState}, SessionInv s →
      SessionInv (vals.foldl append_ecg_sample s)
  | [], _, h => h
  | v :: vs, _, h => append_fold_inv vs (append_one_inv h v)

/-- The handler computes: its effect on the data list is exactly
appending the decoded amplitudes; heart-rate fields are untouched. -/
theorem pmd_data_handler_spec (s : SessionState) (data : List Nat) :
    ∃ ts : List ℚ,
      pmd_data_handler s data =
        { s with
          ecg_session_data := s.ecg_session_data ++ decode_waveform_packet data
          ecg_session_time := s.ecg_session_time ++ ts
          sample_counter := s.sample_counter + (decode_waveform_packet data).length } ∧
      ts.length = (decode_waveform_packet data).length := by
  match data with
  | [] => exact ⟨[], by simp [pmd_data_handler, decode_waveform_packet], rfl⟩
  | b :: rest =>
    by_cases hb : b = 0
    · simp only [pmd_data_handler, decode_waveform_packet, hb, if_true, pmd_loop_eq]
      exact append_fold_spec _ s
    · exact ⟨[], by simp [pmd_data_handler, decode_waveform_packet, hb],
        by simp [decode_waveform_packet, hb]⟩

/-! ### C1: waveform decoding -/

/-- C1: for every notification payload, waveform decoding yields no
amplitudes when the payload is empty or its first byte is not `0x00`;
otherwise one signed integer per complete 3-byte little-endian
two's-complement group of `data[10:]` (here: tag byte, 9 further header
bytes, then the groups), in input order, a trailing remainder of fewer
than 3 bytes silently discarded; each 3-byte group is read as a signed
little-endian two's-complement integer (value in `[-2^23, 2^23)`,
congruent to the unsigned little-endian value mod `2^24`); and the
payload of tag `0x00`, 10 header bytes and the encodings of
`100, -50, 200` decodes to exactly `[100, -50, 200]`. -/
theorem C1_waveform_decoding :
    (∀ data : List Nat, data.head? ≠ some 0 → decode_waveform_packet data = []) ∧
    (∀ (header : List Nat) (groups : List (Nat × Nat × Nat)) (rem : List Nat),
        header.length = 9 → rem.length < 3 →
        decode_waveform_packet
            (0 :: (header ++ ((groups.map fun g => [g.1, g.2.1, g.2.2]).flatten ++ rem)))
          = groups.map fun g => int_from_bytes_le_signed [g.1, g.2.1, g.2.2]) ∧
    (∀ a b c : Nat, a < 256 → b < 256 → c < 256 →
        -(2 ^ 23) ≤ int_from_bytes_le_signed [a, b, c] ∧
        int_from_bytes_le_signed [a, b, c] < 2 ^ 23 ∧
        int_from_bytes_le_signed [a, b, c] % 2 ^ 24
          = ((a : Int) + 256 * (b : Int) + 65536 * (c : Int)) % 2 ^ 24) ∧
    decode_waveform_packet
        ([0, 0, 0, 0, 0, 0, 0, 0, 0, 0] ++ [100, 0, 0, 0xCE, 0xFF, 0xFF, 0xC8, 0, 0])
      = [100, -50, 200] := by
  refine ⟨?_, ?_, ?_, by decide⟩
  · intro data hd
    match data with
    | [] => rfl
    | b :: rest =>
      have hb : b ≠ 0 := by simpa using hd
      simp [decode_waveform_packet, hb]
  · intro header groups rem hh hr
    simp only [decode_waveform_packet, if_true, List.drop_succ_cons]
    rw [← hh, List.drop_left]
    exact decode_ecg_samples_flatten groups rem hr
  · intro a b c ha hb hc
    simp only [int_from_bytes_le_signed, int_from_bytes_le_unsigned, List.foldr_cons,
      List.foldr_nil, List.length_cons, List.length_nil]
    norm_num
    split <;> omega

/-- Witness for C1: the filtering conjunct at payload `[5]`, the group
conjunct at one group `(1,2,3)` with remainder `[9,9]`, and the
two's-complement conjunct at bytes `(206,255,255)`. -/
theorem C1_waveform_decoding_witness :
    decode_waveform_packet [5] = [] ∧
    decode_waveform_packet
        (0 :: ([0, 0, 0, 0, 0, 0, 0, 0, 0] ++
          (([((1 : Nat), (2 : Nat), (3 : Nat))].map fun g => [g.1, g.2.1, g.2.2]).flatten ++ [9, 9])))
      = [((1 : Nat), (2 : Nat), (3 : Nat))].map (fun g => int_from_bytes_le_signed [g.1, g.2.1, g.2.2]) ∧
    (-(2 ^ 23) ≤ int_from_bytes_le_signed [206, 255, 255] ∧
      int_from_bytes_le_signed [206, 255, 255] < 2 ^ 23 ∧
      int_from_bytes_le_signed [206, 255, 255] % 2 ^ 24
        = ((206 : Int) + 256 * (255 : Int) + 65536 * (255 : Int)) % 2 ^ 24) :=
  ⟨C1_waveform_decoding.1 [5] (by decide),
   C1_waveform_decoding.2.1 [0, 0, 0, 0, 0, 0, 0, 0, 0] [(1, 2, 3)] [9, 9] rfl (by decide),
   C1_waveform_decoding.2.2.1 206 255 255 (by decide) (by decide) (by decide)⟩

/-! ### C2: session-store invariant -/

/-- The empty initial session satisfies the invariant. -/
theorem initState_inv : SessionInv initState := by
  refine ⟨rfl, rfl, ?_⟩
  intro i h
  simp [initState] at h

/-- The heart-rate handler never touches the waveform fields, so it
preserves the invariant. -/
theorem hr_handler_inv {s : SessionState} (h : SessionInv s) (now : ℚ)
    (data : List Nat) :
    SessionInv (heart_rate_notification_handler s now data) := by
  unfold heart_rate_notification_handler
  match parse_heart_rate_measurement data with
  | none => exact h
  | some hr => exact h

/-- Every ingestion step preserves the session-store invariant. -/
theorem step_inv {s : SessionState} (h : SessionInv s) (op : Op) :
    SessionInv (step s op) := by
  match op with
  | .heartRate now data => exact hr_handler_inv h now data
  | .waveform data =>
    show SessionInv (pmd_data_handler s data)
    match data with
    | [] => exact h
    | b :: rest =>
      by_cases hb : b = 0
      · simp only [pmd_data_handler, hb, if_true, pmd_loop_eq]
        exact append_fold_inv _ h
      · simpa only [pmd_data_handler, hb, if_false] using h

/-- Every ingestion step only extends the stored sequences: the old
data, time and heart-rate logs are prefixes of the new ones. -/
theorem step_extends (s : SessionState) (op : Op) :
    s.ecg_session_data <+: (step s op).ecg_session_data ∧
    s.ecg_session_time <+: (step s op).ecg_session_time ∧
    s.hr_log <+: (step s op).hr_log := by
  match op with
  | .waveform data =>
    obtain ⟨ts, hts, -⟩ := pmd_data_handler_spec s data
    show s.ecg_session_data <+: (pmd_data_handler s data).ecg_session_data ∧
      s.ecg_session_time <+: (pmd_data_handler s data).ecg_session_time ∧
      s.hr_log <+: (pmd_data_handler s data).hr_log
    rw [hts]
    exact ⟨List.prefix_append _ _, List.prefix_append _ _, List.prefix_rfl⟩
  | .heartRate now data =>
    show s.ecg_session_data <+: (heart_rate_notification_handler s now data).ecg_session_data ∧
      s.ecg_session_time <+: (heart_rate_notification_handler s now data).ecg_session_time ∧
      s.hr_log <+: (heart_rate_notification_handler s now data).hr_log
    unfold heart_rate_notification_handler
    cases hp : parse_heart_rate_measurement data with
    | none => exact ⟨List.prefix_rfl, List.prefix_rfl, List.prefix_rfl⟩
    | some hr => exact ⟨List.prefix_rfl, List.prefix_rfl, List.prefix_append _ _⟩

/-- Any arrival sequence run from an invariant state lands in an
invariant state. -/
theorem foldl_step_inv :
    ∀ (ops : List Op) {s : SessionState}, SessionInv s →
      SessionInv (ops.foldl step s)
  | [], _, h => h
  | op :: rest, _, h => foldl_step_inv rest (step_inv h op)

/-- C2: in every state reachable from the initial empty session by any
sequence of waveform and heart-rate appends, `sample_counter` equals the
length of the stored waveform sequence and the `i`-th stored relative
time equals `i / SAMPLING_RATE`; moreover any further append only
extends the stored sequences (the old data, time and heart-rate logs
are prefixes of the new ones — nothing is truncated or reordered). -/
theorem C2_session_invariant (ops : List Op) (op : Op) :
    SessionInv (run_ops ops) ∧
    (run_ops ops).ecg_session_data <+: (step (run_ops ops) op).ecg_session_data ∧
    (run_ops ops).ecg_session_time <+: (step (run_ops ops) op).ecg_session_time ∧
    (run_ops ops).hr_log <+: (step (run_ops ops) op).hr_log :=
  ⟨foldl_step_inv ops initState_inv, step_extends (run_ops ops) op⟩

/-- Witness for C2: one waveform packet carrying the samples
`100, -50, 200` followed by one heart-rate notification, instantiated
concretely. -/
theorem C2_session_invariant_witness :
    SessionInv (run_ops [Op.waveform
        [0, 0, 0, 0, 0, 0, 0, 0, 0, 0, 100, 0, 0, 0xCE, 0xFF, 0xFF, 0xC8, 0, 0]]) ∧
    (run_ops [Op.waveform
        [0, 0, 0, 0, 0, 0, 0, 0, 0, 0, 100, 0, 0, 0xCE, 0xFF, 0xFF, 0xC8, 0, 0]]).ecg_session_data <+:
      (step (run_ops [Op.waveform
        [0, 0, 0, 0, 0, 0, 0, 0, 0, 0, 100, 0, 0, 0xCE, 0xFF, 0xFF, 0xC8, 0, 0]])
        (Op.heartRate 0 [0, 72])).ecg_session_data ∧
    (run_ops [Op.waveform
        [0, 0, 0, 0, 0, 0, 0, 0, 0, 0, 100, 0, 0, 0xCE, 0xFF, 0xFF, 0xC8, 0, 0]]).ecg_session_time <+:
      (step (run_ops [Op.waveform
        [0, 0, 0, 0, 0, 0, 0, 0, 0, 0, 100, 0, 0, 0xCE, 0xFF, 0xFF, 0xC8, 0, 0]])
        (Op.heartRate 0 [0, 72])).ecg_session_time ∧
    (run_ops [Op.waveform
        [0, 0, 0, 0, 0, 0, 0, 0, 0, 0, 100, 0, 0, 0xCE, 0xFF, 0xFF, 0xC8, 0, 0]]).hr_log <+:
      (step (run_ops [Op.waveform
        [0, 0, 0, 0, 0, 0, 0, 0, 0, 0, 100, 0, 0, 0xCE, 0xFF, 0xFF, 0xC8, 0, 0]])
        (Op.heartRate 0 [0, 72])).hr_log :=
  C2_session_invariant
    [Op.waveform [0, 0, 0, 0, 0, 0, 0, 0, 0, 0, 100, 0, 0, 0xCE, 0xFF, 0xFF, 0xC8, 0, 0]]
    (Op.heartRate 0 [0, 72])

/-! ### C3: heart-rate parsing -/

/-- Counterexample to C3: the claim says parsing fails exactly when the
payload has fewer than 2 bytes, but on the 1-byte payload `[0x01]` (flag
bit set) the code returns 0: `data[1:3]` is the empty slice and
`int.from_bytes(b"")` is 0 — no failure. -/
theorem C3_counterexample :
    parse_heart_rate_measurement [1] = some 0 := by decide

/-- C3 amended: parsing fails (raises) exactly when the payload is empty
or is a single byte whose flag bit (bit 0 of byte 0) is clear.  With the
flag bit clear it returns byte 1; with the flag bit set it returns the
unsigned little-endian value of the slice `data[1:3]`, which Python
truncates to the available bytes: with at least 3 bytes that is
`byte1 + 256 * byte2`, with exactly 2 bytes it is byte 1, and with
1 byte it is 0.  The payloads `[0x00, 72]` and `[0x01, 0x48, 0x00]`
both decode to 72. -/
theorem C3_heart_rate_parse_amended :
    (∀ data : List Nat, parse_heart_rate_measurement data = none ↔
        data = [] ∨ ∃ b0, data = [b0] ∧ b0 % 2 = 0) ∧
    (∀ b0 b1 rest, b0 % 2 = 0 →
        parse_heart_rate_measurement (b0 :: b1 :: rest) = some b1) ∧
    (∀ b0 b1 b2 rest, b0 % 2 = 1 →
        parse_heart_rate_measurement (b0 :: b1 :: b2 :: rest) = some (b1 + 256 * b2)) ∧
    (∀ b0 b1, b0 % 2 = 1 → parse_heart_rate_measurement [b0, b1] = some b1) ∧
    (∀ b0, b0 % 2 = 1 → parse_heart_rate_measurement [b0] = some 0) ∧
    parse_heart_rate_measurement [0, 72] = some 72 ∧
    parse_heart_rate_measurement [1, 0x48, 0] = some 72 := by
  have hand : ∀ n : Nat, n &&& 1 = n % 2 := Nat.and_one_is_mod
  refine ⟨?_, ?_, ?_, ?_, ?_, by decide, by decide⟩
  · intro data
    match data with
    | [] => simp [parse_heart_rate_measurement]
    | [b0] =>
      by_cases h : b0 % 2 = 0 <;>
        simp [parse_heart_rate_measurement, hand, h, int_from_bytes_le_unsigned]
    | b0 :: b1 :: rest =>
      by_cases h : b0 % 2 = 0 <;>
        simp [parse_heart_rate_measurement, hand, h, int_from_bytes_le_unsigned]
  · intro b0 b1 rest h
    simp [parse_heart_rate_measurement, hand, h]
  · intro b0 b1 b2 rest h
    simp [parse_heart_rate_measurement, hand, h, int_from_bytes_le_unsigned]
  · intro b0 b1 h
    simp [parse_heart_rate_measurement, hand, h, int_from_bytes_le_unsigned]
  · intro b0 h
    simp [parse_heart_rate_measurement, hand, h, int_from_bytes_le_unsigned]

/-- Witness for C3 amended: the failure characterization at `[2]` and
`[]`, the 8-bit path at `[4, 90]`, the three 16-bit paths at
`[3, 10, 2, 99]`, `[3, 10]` and `[3]`. -/
theorem C3_heart_rate_parse_amended_witness :
    (parse_heart_rate_measurement [2] = none ↔
        ([2] : List Nat) = [] ∨ ∃ b0, ([2] : List Nat) = [b0] ∧ b0 % 2 = 0) ∧
    parse_heart_rate_measurement [4, 90, 7] = some 90 ∧
    parse_heart_rate_measurement [3, 10, 2, 99] = some (10 + 256 * 2) ∧
    parse_heart_rate_measurement [3, 10] = some 10 ∧
    parse_heart_rate_measurement [3] = some 0 :=
  ⟨C3_heart_rate_parse_amended.1 [2],
   C3_heart_rate_parse_amended.2.1 4 90 [7] (by decide),
   C3_heart_rate_parse_amended.2.2.1 3 10 2 [99] (by decide),
   C3_heart_rate_parse_amended.2.2.2.1 3 10 (by decide),
   C3_heart_rate_parse_amended.2.2.2.2.1 3 (by decide)⟩

/-! ### C4: truncated waveform payloads -/

/-- Counterexample to C4: on the truncated payload (tag `0x00`, 9 header
bytes, one complete 3-byte group encoding 100, one dangling byte) the
code does not fail with `MalformedPacket` and does not leave the state
unchanged: it appends the complete group and silently drops the dangling
byte. -/
theorem C4_counterexample :
    (pmd_data_handler initState
        [0, 0, 0, 0, 0, 0, 0, 0, 0, 0, 100, 0, 0, 7]).ecg_session_data = [100] ∧
    initState.ecg_session_data = [] := by
  exact ⟨by decide, rfl⟩

/-- C4 amended: waveform ingestion never fails — the handler is a total
function of the payload.  A truncated trailing group is silently
discarded while every complete 3-byte group is still decoded and
appended (so the state is extended, not unchanged and not rolled back),
and the heart-rate fields are untouched, so the ingestion loop cannot
crash. -/
theorem C4_truncation_amended (s : SessionState) (data : List Nat) :
    ∃ ts : List ℚ,
      pmd_data_handler s data =
        { s with
          ecg_session_data := s.ecg_session_data ++ decode_waveform_packet data
          ecg_session_time := s.ecg_session_time ++ ts
          sample_counter := s.sample_counter + (decode_waveform_packet data).length } ∧
      ts.length = (decode_waveform_packet data).length :=
  pmd_data_handler_spec s data

/-! ### C7: trailing-window extraction -/

/-- C7: with `window_size = round(100 * 10) = 1000`, for equal-length
sample and time lists the windowing step returns both inputs unchanged
when their length is at most `window_size`, and otherwise returns the
trailing `window_size` elements of both (dropped by the same offset,
hence index-aligned), each of length exactly `window_size`. -/
theorem C7_window_extraction (data : List Int) (times : List ℚ)
    (h : data.length = times.length) :
    window_size = 1000 ∧
    (window_size < data.length →
      update_graph_window data times
        = (data.drop (data.length - window_size),
           times.drop (data.length - window_size)) ∧
      (update_graph_window data times).1.length = window_size ∧
      (update_graph_window data times).2.length = window_size ∧
      (∀ i (h1 : i < (update_graph_window data times).1.length)
          (h2 : data.length - window_size + i < data.length),
        (update_graph_window data times).1.get ⟨i, h1⟩
          = data.get ⟨data.length - window_size + i, h2⟩)) ∧
    (data.length ≤ window_size → update_graph_window data times = (data, times)) := by
  refine ⟨rfl, ?_, ?_⟩
  · intro hlt
    have hupd : update_graph_window data times
        = (data.drop (data.length - window_size),
           times.drop (data.length - window_size)) := by
      rw [update_graph_window, if_pos hlt, h]
    refine ⟨hupd, ?_, ?_, ?_⟩
    · rw [hupd]; simp; omega
    · rw [hupd]; simp; omega
    · intro i h1 h2
      simp only [hupd, List.get_eq_getElem, List.getElem_drop]
  · intro hle
    rw [update_graph_window, if_neg (by omega)]

/-- Witness for C7: a one-sample session is far below the window size,
so the windowing step leaves it unchanged. -/
theorem C7_window_extraction_witness :
    ([(1 : Int)].length = [(0 : ℚ)].length) ∧
    update_graph_window [(1 : Int)] [(0 : ℚ)] = ([(1 : Int)], [(0 : ℚ)]) :=
  ⟨rfl, (C7_window_extraction [(1 : Int)] [(0 : ℚ)] rfl).2.2 (by decide)⟩

/-! ### C9: peak detection on an empty window -/

/-- C9: for the empty amplitude list the peak-detection step of
`update_graph` yields no peak indices and cannot fail, whatever the
external `find_peaks`/`np.std` computation would do: the guard
`len(data) > 0` makes the branch that would evaluate the undefined
standard deviation unreachable. -/
theorem C9_detect_peaks_empty (find_peaks : List Int → List Nat) :
    update_graph_peaks find_peaks [] = [] := rfl

/-! ### C10: header noninterference -/

/-- C10: waveform ingestion depends only on byte 0 and on `data[10:]`.
Two payloads agreeing there (in particular, differing only in the header
bytes at indices 1-9, device timestamp included) drive the session state
to identical results: identical appended amplitudes, identical relative
times, identical counter increments. -/
theorem C10_header_noninterference (d1 d2 : List Nat) (s : SessionState)
    (h0 : d1.head? = d2.head?) (h10 : d1.drop 10 = d2.drop 10) :
    pmd_data_handler s d1 = pmd_data_handler s d2 := by
  match d1, d2 with
  | [], [] => rfl
  | [], _ :: _ => simp at h0
  | _ :: _, [] => simp at h0
  | b1 :: r1, b2 :: r2 =>
    have hb : b1 = b2 := by simpa using h0
    subst hb
    simp only [pmd_data_handler]
    rw [h10]

/-- Witness for C10: two payloads with tag `0x00` and the same sample
bytes but completely different header bytes 1-9 produce the same
state. -/
theorem C10_header_noninterference_witness :
    pmd_data_handler initState [0, 1, 2, 3, 4, 5, 6, 7, 8, 9, 100, 0, 0]
      = pmd_data_handler initState [0, 9, 8, 7, 6, 5, 4, 3, 2, 1, 100, 0, 0] :=
  C10_header_noninterference
    [0, 1, 2, 3, 4, 5, 6, 7, 8, 9, 100, 0, 0]
    [0, 9, 8, 7, 6, 5, 4, 3, 2, 1, 100, 0, 0]
    initState rfl rfl

/-! ### Stable-sort lemmas for the CSV export -/

/-- Membership in an insertion. -/
theorem mem_insertRow {r x : Row} :
    ∀ {l : List Row}, x ∈ insertRow r l ↔ x = r ∨ x ∈ l
  | [] => by simp [insertRow]
  | y :: ys => by
    by_cases hy : y.timestamp ≤ r.timestamp
    · rw [insertRow, if_pos hy, List.mem_cons, mem_insertRow (l := ys), List.mem_cons]
      tauto
    · rw [insertRow, if_neg hy]
      exact List.mem_cons

/-- Insertion is a permutation of consing. -/
theorem insertRow_perm (r : Row) :
    ∀ l : List Row, List.Perm (insertRow r l) (r :: l)
  | [] => List.Perm.refl _
  | y :: ys => by
    by_cases hy : y.timestamp ≤ r.timestamp
    · rw [insertRow, if_pos hy]
      exact ((insertRow_perm r ys).cons y).trans (List.Perm.swap r y ys)
    · rw [insertRow, if_neg hy]

/-- Insertion preserves sortedness by timestamp. -/
theorem insertRow_sorted (r : Row) :
    ∀ {l : List Row}, l.Pairwise (fun a b => a.timestamp ≤ b.timestamp) →
      (insertRow r l).Pairwise (fun a b => a.timestamp ≤ b.timestamp)
  | [], _ => by simp [insertRow]
  | y :: ys, h => by
    rw [List.pairwise_cons] at h
    by_cases hy : y.timestamp ≤ r.timestamp
    · rw [insertRow, if_pos hy, List.pairwise_cons]
      refine ⟨?_, insertRow_sorted r h.2⟩
      intro x hx
      rcases mem_insertRow.mp hx with hx | hx
      · exact hx ▸ hy
      · exact h.1 x hx
    · rw [insertRow, if_neg hy, List.pairwise_cons]
      have hr : r.timestamp ≤ y.timestamp := le_of_not_le hy
      refine ⟨?_, List.pairwise_cons.mpr h⟩
      intro x hx
      rcases List.mem_cons.mp hx with hx | hx
      · exact hx ▸ hr
      · exact hr.trans (h.1 x hx)

/-- Stability of a single insertion: restricted to any fixed timestamp
`t`, inserting a row into a sorted list either leaves the `t`-rows
untouched (if the new row has another timestamp) or appends the new row
after all existing `t`-rows (the new row arrived later). -/
theorem filter_insertRow (t : ℚ) (r : Row) :
    ∀ {l : List Row}, l.Pairwise (fun a b => a.timestamp ≤ b.timestamp) →
      (insertRow r l).filter (fun x => x.timestamp == t)
        = if r.timestamp = t
          then l.filter (fun x => x.timestamp == t) ++ [r]
          else l.filter (fun x => x.timestamp == t)
  | [], _ => by
    by_cases hr : r.timestamp = t <;> simp [insertRow, hr]
  | y :: ys, h => by
    rw [List.pairwise_cons] at h
    by_cases hy : y.timestamp ≤ r.timestamp
    · rw [insertRow, if_pos hy]
      by_cases hr : r.timestamp = t
      · by_cases hyt : y.timestamp = t <;>
          simp [hyt, hr, List.filter_cons, filter_insertRow t r h.2]
      · by_cases hyt : y.timestamp = t <;>
          simp [hyt, hr, List.filter_cons, filter_insertRow t r h.2]
    · rw [insertRow, if_neg hy]
      have hylt : r.timestamp < y.timestamp := lt_of_not_le hy
      by_cases hr : r.timestamp = t
      · have hyt : y.timestamp ≠ t := by rw [← hr]; exact ne_of_gt hylt
        have hys : ∀ x ∈ ys, x.timestamp ≠ t := by
          intro x hx
          have := h.1 x hx
          rw [← hr]
          exact ne_of_gt (lt_of_lt_of_le hylt this)
        have hfil : ys.filter (fun x => x.timestamp == t) = [] := by
          rw [List.filter_eq_nil_iff]
          intro x hx
          simpa using hys x hx
        simp [hr, hyt, List.filter_cons, hfil]
      · simp [hr, List.filter_cons]

/-- Folding insertions over an arrival list, starting from a sorted
accumulator: the result is a permutation of accumulator plus arrivals,
is sorted, and restricted to any fixed timestamp it is exactly the
accumulator's rows followed by the arrivals' rows in arrival order. -/
theorem foldl_insertRow_spec :
    ∀ (l acc : List Row),
      acc.Pairwise (fun a b => a.timestamp ≤ b.timestamp) →
      List.Perm (l.foldl (fun acc r => insertRow r acc) acc) (acc ++ l) ∧
      (l.foldl (fun acc r => insertRow r acc) acc).Pairwise
        (fun a b => a.timestamp ≤ b.timestamp) ∧
      ∀ t : ℚ, (l.foldl (fun acc r => insertRow r acc) acc).filter
          (fun x => x.timestamp == t)
        = acc.filter (fun x => x.timestamp == t) ++ l.filter (fun x => x.timestamp == t)
  | [], acc, h => ⟨by simp, h, by simp⟩
  | r :: rest, acc, h => by
    obtain ⟨hperm, hsort, hfil⟩ :=
      foldl_insertRow_spec rest (insertRow r acc) (insertRow_sorted r h)
    refine ⟨?_, hsort, ?_⟩
    · exact hperm.trans
        (((insertRow_perm r acc).append_right rest).trans List.perm_middle.symm)
    · intro t
      rw [List.foldl_cons, hfil t, filter_insertRow t r h]
      by_cases hr : r.timestamp = t <;> simp [hr, List.filter_cons]

/-! ### C5: combined CSV rows -/

/-- Counterexample to C5: a heart-rate log entry is exported with the
source label `"Heart Rate"` (with a space, `main.py` line 199), not
`"HeartRate"` as the claim states. -/
theorem C5_counterexample :
    generate_combined_csv_rows [] [] [((0 : ℚ), 72)] 0
      = [{ timestamp := 0, source := "Heart Rate", value := 72 }] ∧
    "Heart Rate" ≠ "HeartRate" := by
  exact ⟨by decide, by decide⟩

/-- C5 amended: the export maps each waveform sample to exactly one row
with timestamp `start_time + relative_time` and source `"ECG"` and each
heart-rate entry to exactly one row with its own recorded timestamp and
source `"Heart Rate"` (the result is a permutation of exactly those
rows); the result is sorted ascending by timestamp; and ties are broken
by stable input order — restricted to any fixed timestamp the output is
the ECG rows in input order followed by the heart-rate rows in input
order. -/
theorem C5_export_rows_amended (ecg_times : List ℚ) (ecg_values : List Int)
    (hr_log : List (ℚ × Nat)) (start_time : ℚ) :
    List.Perm (generate_combined_csv_rows ecg_times ecg_values hr_log start_time)
      (((ecg_times.zip ecg_values).map fun p =>
          ({ timestamp := start_time + p.1, source := "ECG", value := p.2 } : Row)) ++
       (hr_log.map fun p =>
          ({ timestamp := p.1, source := "Heart Rate", value := (p.2 : Int) } : Row))) ∧
    (generate_combined_csv_rows ecg_times ecg_values hr_log start_time).Pairwise
      (fun a b => a.timestamp ≤ b.timestamp) ∧
    ∀ t : ℚ,
      (generate_combined_csv_rows ecg_times ecg_values hr_log start_time).filter
          (fun x => x.timestamp == t)
        = ((ecg_times.zip ecg_values).map fun p =>
              ({ timestamp := start_time + p.1, source := "ECG", value := p.2 } : Row)).filter
            (fun x => x.timestamp == t) ++
          (hr_log.map fun p =>
              ({ timestamp := p.1, source := "Heart Rate", value := (p.2 : Int) } : Row)).filter
            (fun x => x.timestamp == t) := by
  obtain ⟨hperm, hsort, hfil⟩ :=
    foldl_insertRow_spec
      (((ecg_times.zip ecg_values).map fun p =>
          ({ timestamp := start_time + p.1, source := "ECG", value := p.2 } : Row)) ++
       (hr_log.map fun p =>
          ({ timestamp := p.1, source := "Heart Rate", value := (p.2 : Int) } : Row)))
      [] (by simp)

  refine ⟨?_, ?_, ?_⟩
  · rw [generate_combined_csv_rows, sortRows]
    exact hperm
  · rw [generate_combined_csv_rows, sortRows]
    exact hsort
  · intro t
    rw [generate_combined_csv_rows, sortRows, hfil t, List.filter_append]
    simp

/-! ### C6: export of an empty session -/

/-- Counterexample to C6: on an empty session the export does not fail
with `EmptySession` — `generate_combined_csv` builds the empty row list,
sorts it, and returns a (empty) CSV download without any error path. -/
theorem C6_counterexample :
    generate_combined_csv_rows [] [] [] 0 = [] := rfl

/-- C6 amended: when both snapshots are empty the export succeeds and
produces zero rows (an empty CSV), rather than failing with
`EmptySession`; no session state is involved or changed. -/
theorem C6_empty_export_amended (start_time : ℚ) :
    generate_combined_csv_rows [] [] [] start_time = [] := rfl

end PolarH10
